import Mathlib

/-!
Verification development for the `hackathon` repository
(`src/backend/pdf_processor.py`, `src/backend/similarity_analyzer.py`).

The Python code is shallowly embedded: dictionaries become structures,
floats become rationals (`ℚ`), Python lists become `List`, and fallible
external calls become `Except`/`Option` values.  Python string helpers
(`str.strip()`, `str.split()`, `str.lower()`, substring `in`) are modelled
by executable functions over the underlying character lists so that every
definition evaluates inside the kernel.
-/

namespace PdfProc

/-! ## Python string primitives -/

/-- Python `str.strip()` on a character list: drop leading and trailing
whitespace. -/
def stripChars (l : List Char) : List Char :=
  ((l.dropWhile Char.isWhitespace).reverse.dropWhile Char.isWhitespace).reverse

/-- Python `str.strip()`. -/
def pyStrip (s : String) : String :=
  String.mk (stripChars s.data)

/-- Auxiliary for `pySplitWs`: accumulate the current (reversed) run of
non-whitespace characters. -/
def wsSplitAux : List Char → List Char → List (List Char)
  | [], acc => if acc.isEmpty then [] else [acc.reverse]
  | c :: rest, acc =>
    if c.isWhitespace then
      if acc.isEmpty then wsSplitAux rest []
      else acc.reverse :: wsSplitAux rest []
    else wsSplitAux rest (c :: acc)

/-- Python `str.split()` with no argument: the maximal runs of
non-whitespace characters (never yields empty tokens). -/
def pySplitWs (s : String) : List String :=
  (wsSplitAux s.data []).map String.mk

/-- `charsBeginWith pat l` : `pat` is a prefix of `l` (models the start of a
Python substring test). -/
def charsBeginWith : List Char → List Char → Bool
  | [], _ => true
  | _ :: _, [] => false
  | p :: ps, c :: cs => p == c && charsBeginWith ps cs

/-- `charsContain l pat` : `pat` occurs contiguously inside `l`
(Python `pat in l`, including the empty-pattern case, which is `True`). -/
def charsContain : List Char → List Char → Bool
  | [], pat => charsBeginWith pat []
  | c :: rest, pat => charsBeginWith pat (c :: rest) || charsContain rest pat

/-- Python `str.lower()` (character-wise lowering). -/
def lowerChars (s : String) : List Char :=
  s.data.map Char.toLower

/-- Python `needle.lower() in line.lower()` as used by the section
segmenter. -/
def lineContains (line needle : String) : Bool :=
  charsContain (lowerChars line) (lowerChars needle)

/-- Python `s.endswith(' ')` (a literal single space, as in
`smart_join_lines`). -/
def endsWithSpace (s : String) : Bool :=
  match s.data.getLast? with
  | some c => c == ' '
  | none => false

/-- Python `s.startswith(' ')` (a literal single space). -/
def startsWithSpace (s : String) : Bool :=
  match s.data with
  | c :: _ => c == ' '
  | [] => false

/-! ## Layout feature extraction (pdf_processor.py, lines 45-163)

Only the parts of `extract_features_from_pdf` that the claims exercise are
embedded: the per-block text assembly, the bold flag and the underline flag
(lines 92-126), together with `smart_join_lines` (lines 45-56).  PDF parsing
itself (`fitz`) is the external input: a block arrives as its list of lines,
each line a list of spans. -/

/-- One span of `page.get_text("dict")`: its text, font size and style
flags. -/
structure Span where
  text : String
  size : ℚ
  flags : ℕ
deriving DecidableEq, Repr

/-- `"".join(span['text'] for span in line['spans'])` (line 283, and the
`text_line` accumulation of lines 96-98). -/
def line_text (line : List Span) : String :=
  (line.map Span.text).foldl (fun a b => a ++ b) ""

/-- The `line_texts` list of lines 93-102: the text of every line whose
stripped text is non-empty. -/
def line_texts (lines : List (List Span)) : List String :=
  (lines.map line_text).filter (fun t => pyStrip t ≠ "")

/-- `underline_present` of lines 94-100: true when ANY span of ANY line of
the block carries style-flag bit 4. -/
def underline_present (lines : List (List Span)) : Bool :=
  lines.any (fun line => line.any (fun span => (span.flags &&& 4) != 0))

/-- `smart_join_lines` (lines 45-56): concatenate the lines, inserting a
single space before line `i > 0` unless the previously appended piece ends
with a space or the new line starts with one; finally strip. -/
def smart_join_lines (lines : List String) : String :=
  match lines with
  | [] => ""
  | l0 :: rest =>
    let step := fun (acc : String × String) (line : String) =>
      let piece := if endsWithSpace acc.2 || startsWithSpace line then line
                   else " " ++ line
      (acc.1 ++ piece, piece)
    pyStrip (rest.foldl step (l0, l0)).1

/-- Lines 92-111 of `extract_features_from_pdf`, specialised to the three
derived values the claims are about: the combined block text, `is_bold`
(bit 16 of the FIRST span's flags, line 109-111) and `is_underlined`
(`underline_present`, any span).  Returns `none` when the block is skipped
(`if not line_texts: continue`, lines 104-105) or when the first line has no
span at all (where the Python would raise an `IndexError` on
`b['lines'][0]['spans'][0]`). -/
def block_text_features (lines : List (List Span)) : Option (String × Bool × Bool) :=
  if line_texts lines = [] then none
  else
    match lines with
    | (first_span :: _) :: _ =>
      some (smart_join_lines (line_texts lines),
            (first_span.flags &&& 16) != 0,
            underline_present lines)
    | _ => none

/-! ## Feature vectors and the heuristic classifier
(pdf_processor.py, lines 137-160 and 233-269) -/

/-- One entry of `processed_data` (lines 145-160): the per-block feature
dictionary consumed by the classifiers. -/
structure FeatureItem where
  text : String
  font_size_relative_to_max_pdf : ℚ
  font_size_relative_to_max_page : ℚ
  is_bold : Bool
  num_words : ℕ
  punctuation : String
  x_pos_relative : ℚ
  y_pos_relative : ℚ
  page_no : ℕ
  title_case_ratio : ℚ
  stopword_ratio : ℚ
  space_above : ℚ
  space_below : ℚ
  is_underlined : Bool
deriving DecidableEq, Repr

/-- One outline entry `{"level": ..., "text": ..., "page": ...}`
(lines 263-267); the spec's `HeadingEntry`. -/
structure HeadingEntry where
  level : String
  text : String
  page : ℕ
deriving DecidableEq, Repr

/-- The `{"title": ..., "outline": ...}` dictionary returned by both
classifier strategies. -/
structure PredictResult where
  title : String
  outline : List HeadingEntry
deriving DecidableEq, Repr

/-- The sort key comparison of line 239:
`sorted(input_data, key=lambda x: (x['page_no'], x['y_pos_relative']))` —
lexicographic on (page, normalized y).  Python's `sorted` is a stable sort;
it is embedded below as `List.insertionSort`, which is also stable, so the
two agree on every input. -/
def heurKeyLe (a b : FeatureItem) : Prop :=
  a.page_no < b.page_no ∨
    (a.page_no = b.page_no ∧ a.y_pos_relative ≤ b.y_pos_relative)

instance : DecidableRel heurKeyLe := fun a b => by
  unfold heurKeyLe; infer_instance

/-- The level heuristic of lines 248-255. -/
def headingLevel (item : FeatureItem) : String :=
  if item.font_size_relative_to_max_pdf > mkRat 8 10 ∧ item.is_bold = true ∧
      item.num_words ≤ 10 then "H1"
  else if item.font_size_relative_to_max_pdf > mkRat 6 10 ∧
      (item.is_bold = true ∨ item.num_words ≤ 15) then "H2"
  else if item.font_size_relative_to_max_pdf > mkRat 5 10 ∧ item.num_words ≤ 20 then "H3"
  else "None"

/-- The title condition of line 258:
`item['page_no'] == 0 and item['y_pos_relative'] < 0.1 and font_size_ratio > 0.9`. -/
def titleCond (item : FeatureItem) : Prop :=
  item.page_no = 0 ∧ item.y_pos_relative < mkRat 1 10 ∧
    item.font_size_relative_to_max_pdf > mkRat 9 10

instance (item : FeatureItem) : Decidable (titleCond item) := by
  unfold titleCond; infer_instance

/-- One iteration of the loop of lines 241-267, acting on the pair
`(title_text, outline)`.  A title block OVERWRITES `title_text` and is
skipped (`continue`); otherwise a non-`"None"` level appends an outline
entry with 1-based page. -/
def simpleStep (acc : String × List HeadingEntry) (item : FeatureItem) :
    String × List HeadingEntry :=
  let level := headingLevel item
  if titleCond item then (item.text, acc.2)
  else if level ≠ "None" then
    (acc.1, acc.2 ++ [{ level := level, text := item.text, page := item.page_no + 1 }])
  else acc

/-- `predict_headings_simple` (lines 233-269): stable-sort by (page, y),
run the loop, strip the title. -/
def predict_headings_simple (input_data : List FeatureItem) : PredictResult :=
  let sorted_data := input_data.insertionSort heurKeyLe
  let r := sorted_data.foldl simpleStep ("", [])
  { title := pyStrip r.1, outline := r.2 }

/-! ## The model strategy and its fallback
(pdf_processor.py, lines 165-231 and 322-354)

The body of the `try:` block (pandas one-hot encoding, scikit-learn
inference, label decoding) is external library code; it is embedded as an
abstract fallible function `ModelFn`, an `Except.error` result standing for
any raised exception (missing feature schema, inference error, decoding
error). -/

/-- An abstract pretrained heading model: a fallible map from the feature
list to a classification result (lines 170-227). -/
def ModelFn : Type := List FeatureItem → Except String PredictResult

/-- `predict_headings_with_model` (lines 165-231): no loaded model
(`if not self.heading_model`) or any exception in the `try:` block falls
back to `predict_headings_simple` on the same input; a successful inference
returns the model's result. -/
def predict_headings_with_model (heading_model : Option ModelFn)
    (input_data : List FeatureItem) : PredictResult :=
  match heading_model with
  | none => predict_headings_simple input_data
  | some m =>
    match m input_data with
    | Except.ok r => r
    | Except.error _ => predict_headings_simple input_data

/-- The `model_used` metadata value written by `process_pdf` (line 340):
`'pretrained' if self.heading_model else 'heuristic'` — it depends only on
whether a model object is loaded. -/
def model_used (heading_model : Option ModelFn) : String :=
  if heading_model.isSome then "pretrained" else "heuristic"

/-- Modelled from the spec: "which classifier strategy produced the
outline" — `"pretrained"` exactly when the model strategy succeeded,
`"heuristic"` when there is no model or the model raised and the silent
fallback ran.  This is the spec-side reference value that claim C2 compares
against `model_used`. -/
def strategy_that_produced_outline (heading_model : Option ModelFn)
    (input_data : List FeatureItem) : String :=
  match heading_model with
  | none => "heuristic"
  | some m =>
    match m input_data with
    | Except.ok _ => "pretrained"
    | Except.error _ => "heuristic"

/-! ## Section segmentation (pdf_processor.py, lines 271-320)

A document is embedded as the list of its pages; a page as the list of its
blocks (`page.get_text("dict")["blocks"]`); a block as its list of lines;
a line as its list of spans.  `doc.load_page` raises for an out-of-range
page number and aborts the whole document; the embedding instead truncates
the page window, which agrees with the Python on every in-range window. -/

/-- One page: blocks, each a list of lines of spans. -/
def PageContent : Type := List (List (List Span))

/-- The line texts of a page in traversal order (lines 281-283:
`for block in blocks: for line in block.get("lines", []):`). -/
def page_line_texts (page : PageContent) : List String :=
  page.flatMap (fun block => block.map line_text)

/-- The pages scanned for a heading (lines 273-278): from
`heading['page'] - 1` through `next_heading['page'] - 1` (or the last page
when there is no next heading), inclusive. -/
def window_pages (doc : List PageContent) (heading : HeadingEntry)
    (next_heading : Option HeadingEntry) : List PageContent :=
  let start_page := heading.page - 1
  let end_page := match next_heading with
    | some nh => nh.page - 1
    | none => doc.length - 1
  (doc.drop start_page).take (end_page + 1 - start_page)

/-- All line texts of the scanned window, in scan order. -/
def window_lines (doc : List PageContent) (heading : HeadingEntry)
    (next_heading : Option HeadingEntry) : List String :=
  (window_pages doc heading next_heading).flatMap page_line_texts

/-- The scan loop of lines 278-291: activate `heading_found` on the first
line containing the heading text (case-insensitively; that line is not
accumulated), then append every line (plus a space) until a line containing
the next heading's text ends the scan; the accumulated text is stripped. -/
def scan_lines (heading_text : String) (next_text : Option String) :
    List String → Bool → String → String
  | [], _, full_text => pyStrip full_text
  | lt :: rest, heading_found, full_text =>
    if heading_found = false then
      if lineContains lt heading_text then
        scan_lines heading_text next_text rest true full_text
      else
        scan_lines heading_text next_text rest false full_text
    else
      match next_text with
      | some nt =>
        if lineContains lt nt then pyStrip full_text
        else scan_lines heading_text next_text rest true (full_text ++ lt ++ " ")
      | none => scan_lines heading_text next_text rest true (full_text ++ lt ++ " ")

/-- `extract_text_for_heading` (lines 271-291). -/
def extract_text_for_heading (doc : List PageContent) (heading : HeadingEntry)
    (next_heading : Option HeadingEntry) : String :=
  scan_lines heading.text (next_heading.map HeadingEntry.text)
    (window_lines doc heading next_heading) false ""

/-- One entry of the `sections` list built by `extract_sections_with_content`
(lines 310-317).  The `embedding` field is produced by the external
sentence-transformer capability and is not part of the embedded state. -/
structure SectionOut where
  section_title : String
  page_number : ℕ
  level : String
  content : String
  section_text : String
deriving DecidableEq, Repr

/-- `extract_sections_with_content` (lines 293-320): for outline entry `i`
the next entry is `outline[i+1]` (none for the last); entries whose
extracted content is empty are dropped (`if content:`). -/
def extract_sections_with_content (doc : List PageContent) :
    List HeadingEntry → List SectionOut
  | [] => []
  | curr :: rest =>
    let content := extract_text_for_heading doc curr rest.head?
    let tail := extract_sections_with_content doc rest
    if content ≠ "" then
      { section_title := curr.text, page_number := curr.page, level := curr.level,
        content := content, section_text := curr.text ++ ". " ++ content } :: tail
    else tail

/-! ## Similarity search (similarity_analyzer.py) -/

/-- `count_words` (lines 12-19): empty/non-string input counts 0; otherwise
split on whitespace, strip each token and drop the empty ones. -/
def count_words (text : String) : ℕ :=
  if text = "" then 0
  else (((pySplitWs text).map pyStrip).filter (fun w => w ≠ "")).length

/-- One section as stored in a processed JSON file (the `sections` entries
written by `process_pdf`).  The stored `embedding` vector belongs to the
external embedding capability and is abstracted out (similarity to the
query is supplied as a scoring function below). -/
structure StoredSection where
  section_title : String
  page_number : ℕ
  level : String
  content : String
deriving DecidableEq, Repr

/-- One entry of `processed_files` together with the on-disk state that
`load_sections_with_embeddings` (lines 86-110) inspects: whether the JSON
file exists (line 94) and whether it has a `sections` key (line 101). -/
structure ProcessedFileInfo where
  original_file : String
  json_exists : Bool
  has_sections : Bool
  sections : List StoredSection
deriving DecidableEq, Repr

/-- A loaded section with its `document` field set (line 107). -/
structure SectionData where
  document : String
  section_title : String
  page_number : ℕ
  level : String
  content : String
deriving DecidableEq, Repr

/-- `load_sections_with_embeddings` (lines 86-110): skip a file whose JSON
is missing or has no `sections` key, otherwise append its sections tagged
with the document name, in file order then section order. -/
def load_sections_with_embeddings (processed_files : List ProcessedFileInfo) :
    List SectionData :=
  processed_files.foldl
    (fun sections f =>
      if f.json_exists = false then sections
      else if f.has_sections = false then sections
      else sections ++ f.sections.map (fun s =>
        { document := f.original_file, section_title := s.section_title,
          page_number := s.page_number, level := s.level, content := s.content }))
    []

/-- One result dictionary appended at lines 62-71. -/
structure SearchResult where
  document : String
  section_title : String
  importance_rank : ℕ
  page_number : ℕ
  similarity_score : ℚ
  level : String
  content : String
  word_count : ℕ
deriving DecidableEq, Repr

/-- The result record built at lines 62-71 from a section, its rank, its
similarity score and its word count. -/
def mkResult (s : SectionData) (rank_counter : ℕ) (sim : ℚ) (word_count : ℕ) :
    SearchResult :=
  { document := s.document, section_title := s.section_title,
    importance_rank := rank_counter, page_number := s.page_number,
    similarity_score := sim, level := s.level, content := s.content,
    word_count := word_count }

/-- The descending-by-score order used at line 45:
`sorted(sections, key=lambda x: x['similarity_score'], reverse=True)`. -/
def simLe (a b : SectionData × ℚ) : Prop := b.2 ≤ a.2

instance : DecidableRel simLe := fun a b => by
  unfold simLe; infer_instance

instance : IsTotal (SectionData × ℚ) simLe :=
  ⟨fun a b => (le_total b.2 a.2).imp id id⟩

instance : IsTrans (SectionData × ℚ) simLe :=
  ⟨fun _ _ _ hab hbc => le_trans hbc hab⟩

/-- Lines 40-45: attach each section's similarity score and sort by score
descending (`sorted(..., reverse=True)`, a stable sort, embedded as the
stable `List.insertionSort`).  The score of a section —
`cosine_similarity(model.encode(query), section.embedding)` — is an
external computation and enters as the function `score`. -/
def ranked_sections (score : SectionData → ℚ) (sections : List SectionData) :
    List (SectionData × ℚ) :=
  (sections.map (fun s => (s, score s))).insertionSort simLe

/-- The result loop of lines 48-77: walk the ranked list; skip a section
whose content has fewer than 15 words; otherwise append the result record
and stop as soon as `len(results) >= top_n`. -/
def resultsLoop (top_n : ℤ) :
    List (SectionData × ℚ) → List SearchResult → ℕ → List SearchResult
  | [], results, _ => results
  | s :: rest, results, rank_counter =>
    if count_words s.1.content < 15 then
      resultsLoop top_n rest results rank_counter
    else
      let results' := results ++ [mkResult s.1 rank_counter s.2 (count_words s.1.content)]
      if top_n ≤ (results'.length : ℤ) then results'
      else resultsLoop top_n rest results' (rank_counter + 1)

/-- `find_similar_sections_fast` (lines 21-84): load every section of every
supplied index, return `[]` when there are none (line 27-28), otherwise
rank by similarity and run the filter/rank/cutoff loop. -/
def find_similar_sections_fast (score : SectionData → ℚ)
    (processed_files : List ProcessedFileInfo) (top_n : ℤ) : List SearchResult :=
  let sections := load_sections_with_embeddings processed_files
  if sections.isEmpty then []
  else resultsLoop top_n (ranked_sections score sections) [] 1

/-! ## Characterization helpers (proof-side, not from the source) -/

/-- The outline entry (if any) that the heuristic loop appends for one
block: `none` for a title block or a `"None"`-level block. -/
def entryOf (item : FeatureItem) : Option HeadingEntry :=
  if titleCond item then none
  else if headingLevel item ≠ "None" then
    some { level := headingLevel item, text := item.text, page := item.page_no + 1 }
  else none

/-- Closed form of `resultsLoop` started at rank `rank` with an empty
accumulator: keep the ≥15-word sections, rank them consecutively, stop once
the rank reaches `top_n`. -/
def takeRanked (top_n : ℤ) : ℕ → List (SectionData × ℚ) → List SearchResult
  | _, [] => []
  | rank, s :: rest =>
    if count_words s.1.content < 15 then takeRanked top_n rank rest
    else if top_n ≤ (rank : ℤ) then [mkResult s.1 rank s.2 (count_words s.1.content)]
    else mkResult s.1 rank s.2 (count_words s.1.content) :: takeRanked top_n (rank + 1) rest

/-- The rank-independent identity of a search result. -/
def resKey (r : SearchResult) : String × String × ℕ × String × String × ℚ :=
  (r.document, r.section_title, r.page_number, r.level, r.content, r.similarity_score)

/-- The identity of a scored candidate section. -/
def scoredKey (x : SectionData × ℚ) : String × String × ℕ × String × String × ℚ :=
  (x.1.document, x.1.section_title, x.1.page_number, x.1.level, x.1.content, x.2)

/-- Plain concatenation of a list of strings. -/
def concatAll : List String → String
  | [] => ""
  | s :: rest => s ++ concatAll rest

/-- Whether a line ends the accumulation for the current section: it
contains the next heading's text (never, when there is no next heading). -/
def stopAtNext (next_text : Option String) (lt : String) : Bool :=
  match next_text with
  | some nt => lineContains lt nt
  | none => false

/-! ## Concrete inputs used by witnesses and counterexamples -/

/-- A first-page block satisfying the title condition, highest on the page. -/
def blkA : FeatureItem :=
  { text := "Annual Report A", font_size_relative_to_max_pdf := 1,
    font_size_relative_to_max_page := 1, is_bold := false, num_words := 3,
    punctuation := "NULL", x_pos_relative := 0, y_pos_relative := mkRat 1 100,
    page_no := 0, title_case_ratio := 1, stopword_ratio := 0,
    space_above := 0, space_below := 0, is_underlined := false }

/-- A second first-page block also satisfying the title condition, lower on
the page than `blkA`. -/
def blkB : FeatureItem :=
  { text := "Annual Report B", font_size_relative_to_max_pdf := mkRat 19 20,
    font_size_relative_to_max_page := mkRat 19 20, is_bold := false, num_words := 3,
    punctuation := "NULL", x_pos_relative := 0, y_pos_relative := mkRat 1 20,
    page_no := 0, title_case_ratio := 1, stopword_ratio := 0,
    space_above := 0, space_below := 0, is_underlined := false }

/-- Scenario 2 of the spec: font ratio 0.85, bold, 8 words, page index 2. -/
def blkH1 : FeatureItem :=
  { text := "A Bold Heading Of Exactly Eight Words Here",
    font_size_relative_to_max_pdf := mkRat 85 100, font_size_relative_to_max_page := mkRat 85 100,
    is_bold := true, num_words := 8, punctuation := "NULL", x_pos_relative := 0,
    y_pos_relative := mkRat 1 2, page_no := 2, title_case_ratio := 1,
    stopword_ratio := 0, space_above := 0, space_below := 0,
    is_underlined := false }

/-- A model function that always raises. -/
def failingModel : ModelFn := fun _ => Except.error "boom"

/-- A block whose first span is NOT underlined but whose second span is. -/
def cexBlockLines : List (List Span) :=
  [[{ text := "Hello", size := 12, flags := 0 },
    { text := " world", size := 12, flags := 4 }]]

/-- A one-page document for the segmentation witness: five one-line blocks. -/
def docC6 : List PageContent :=
  [[ [[{ text := "The Title", size := 16, flags := 0 }]],
     [[{ text := "Intro", size := 14, flags := 0 }]],
     [[{ text := "alpha beta", size := 10, flags := 0 }]],
     [[{ text := "Next Sec", size := 14, flags := 0 }]],
     [[{ text := "gamma", size := 10, flags := 0 }]] ]]

/-- The heading whose section the segmentation witness extracts. -/
def hIntro : HeadingEntry := { level := "H1", text := "Intro", page := 1 }

/-- The next heading for the segmentation witness. -/
def hNext : HeadingEntry := { level := "H1", text := "Next Sec", page := 1 }

/-- A 15-word content string. -/
def longContentA : String :=
  "alpha one two three four five six seven eight nine ten eleven twelve thirteen fourteen"

/-- Another 15-word content string. -/
def longContentB : String :=
  "beta one two three four five six seven eight nine ten eleven twelve thirteen fourteen"

/-- A stored section with 15 words of content. -/
def secAlpha : StoredSection :=
  { section_title := "Alpha", page_number := 1, level := "H1", content := longContentA }

/-- A second stored section with 15 words of content. -/
def secBeta : StoredSection :=
  { section_title := "Beta", page_number := 2, level := "H2", content := longContentB }

/-- A stored section with fewer than 15 words of content. -/
def secTiny : StoredSection :=
  { section_title := "Tiny", page_number := 3, level := "H3", content := "too short" }

/-- A processed file holding two long sections. -/
def exFileAB : ProcessedFileInfo :=
  { original_file := "doc.pdf", json_exists := true, has_sections := true,
    sections := [secAlpha, secBeta] }

/-- A processed file holding a short section followed by a long one. -/
def exFileTinyAlpha : ProcessedFileInfo :=
  { original_file := "doc2.pdf", json_exists := true, has_sections := true,
    sections := [secTiny, secAlpha] }

/-- A score function preferring the section titled `"Beta"`. -/
def scoreBeta : SectionData → ℚ := fun s => if s.section_title = "Beta" then 1 else 0

/-- The constant-zero score function. -/
def zeroScore : SectionData → ℚ := fun _ => 0

/-- The loaded form of `secAlpha` inside `exFileTinyAlpha`. -/
def loadedAlpha : SectionData :=
  { document := "doc2.pdf", section_title := "Alpha", page_number := 1,
    level := "H1", content := longContentA }

/-- The single result of searching `exFileTinyAlpha` with the zero score. -/
def resAlpha : SearchResult := mkResult loadedAlpha 1 0 15

/-! # Theorems

First the characterization lemmas for the heuristic classifier loop, then
the claims themselves. -/

/-- The title component of the classifier loop: the loop overwrites
`title_text` at every title block, so the fold's title is the text of the
LAST block satisfying the title condition (or the initial value when there
is none). -/
theorem foldl_simpleStep_fst (l : List FeatureItem) : ∀ (t : String) (o : List HeadingEntry),
    (l.foldl simpleStep (t, o)).1 =
      ((l.filter (fun i => decide (titleCond i))).map FeatureItem.text).getLastD t := by
  induction l with
  | nil => intro t o; simp
  | cons a l ih =>
    intro t o
    by_cases h : titleCond a
    · have hstep : simpleStep (t, o) a = (a.text, o) := by simp [simpleStep, h]
      have hfil : (a :: l).filter (fun i => decide (titleCond i)) =
          a :: l.filter (fun i => decide (titleCond i)) := by simp [h]
      rw [List.foldl_cons, hstep, ih, hfil, List.map_cons, List.getLastD_cons]
    · have hfil : (a :: l).filter (fun i => decide (titleCond i)) =
          l.filter (fun i => decide (titleCond i)) := by simp [h]
      by_cases h2 : headingLevel a = "None"
      · have hstep : simpleStep (t, o) a = (t, o) := by simp [simpleStep, h, h2]
        rw [List.foldl_cons, hstep, ih, hfil]
      · have hstep : simpleStep (t, o) a =
            (t, o ++ [{ level := headingLevel a, text := a.text,
                        page := a.page_no + 1 }]) := by
          simp [simpleStep, h, h2]
        rw [List.foldl_cons, hstep, ih, hfil]

/-- The outline component of the classifier loop: title blocks are skipped
(`continue`), every other block with a non-`"None"` level appends one entry. -/
theorem foldl_simpleStep_snd (l : List FeatureItem) : ∀ (t : String) (o : List HeadingEntry),
    (l.foldl simpleStep (t, o)).2 = o ++ l.filterMap entryOf := by
  induction l with
  | nil => intro t o; simp
  | cons a l ih =>
    intro t o
    by_cases h : titleCond a
    · simp [simpleStep, entryOf, h, ih]
    · by_cases h2 : headingLevel a = "None"
      · simp [simpleStep, entryOf, h, h2, ih]
      · simp [simpleStep, entryOf, h, h2, ih]

/-- C1, counterexample: two first-page blocks `blkA` (higher on the page,
first in (page, y) sorted order) and `blkB` both satisfy the title
condition, yet `predict_headings_simple` returns `blkB`'s text — the LAST
qualifying block — as the title, not the text of the first qualifying
block, refuting the claim. -/
theorem claim_C1_cex :
    titleCond blkA ∧ titleCond blkB ∧ heurKeyLe blkA blkB ∧ ¬ heurKeyLe blkB blkA ∧
    List.insertionSort heurKeyLe [blkA, blkB] = [blkA, blkB] ∧
    (predict_headings_simple [blkA, blkB]).title ≠ blkA.text ∧
    (predict_headings_simple [blkA, blkB]).title = blkB.text :=
  ⟨by decide, by decide, by decide, by decide, by decide, by decide, by decide⟩

/-- C1 (amended): under the heuristic classifier the returned title is the
stripped text of the LAST block in (page, y) sorted order satisfying the
title condition (empty when none does), and every qualifying block is
excluded from the outline: the outline consists exactly of the
`entryOf`-images of the sorted blocks, where a qualifying block contributes
nothing. -/
theorem claim_C1_thm (input_data : List FeatureItem) :
    (predict_headings_simple input_data).title =
      pyStrip ((((input_data.insertionSort heurKeyLe).filter
          (fun i => decide (titleCond i))).map FeatureItem.text).getLastD "") ∧
    (predict_headings_simple input_data).outline =
      (input_data.insertionSort heurKeyLe).filterMap entryOf := by
  constructor
  · simp [predict_headings_simple, foldl_simpleStep_fst]
  · simp [predict_headings_simple, foldl_simpleStep_snd]

/-- C8: every block that does not satisfy the title condition and has
font-size ratio (to the document max) above 0.8, bold flag set and at most
10 words is emitted by the heuristic classifier as an `H1` outline entry
with 1-based page number. -/
theorem claim_C8_thm (input_data : List FeatureItem) (item : FeatureItem)
    (hmem : item ∈ input_data) (hnt : ¬ titleCond item)
    (hr : item.font_size_relative_to_max_pdf > mkRat 8 10)
    (hb : item.is_bold = true) (hw : item.num_words ≤ 10) :
    ({ level := "H1", text := item.text, page := item.page_no + 1 } : HeadingEntry) ∈
      (predict_headings_simple input_data).outline := by
  have houtline : (predict_headings_simple input_data).outline =
      (input_data.insertionSort heurKeyLe).filterMap entryOf := by
    simp [predict_headings_simple, foldl_simpleStep_snd]
  rw [houtline]
  apply List.mem_filterMap.mpr
  refine ⟨item, (List.mem_insertionSort heurKeyLe).mpr hmem, ?_⟩
  have hlev : headingLevel item = "H1" := by
    simp [headingLevel, hr, hb, hw]
  simp [entryOf, hnt, hlev]

/-- C8, witness (spec Scenario 2): a bold block with ratio 0.85, 8 words,
page index 2 yields the outline entry with level `"H1"` and page 3. -/
theorem claim_C8_witness :
    ({ level := "H1", text := "A Bold Heading Of Exactly Eight Words Here",
       page := 3 } : HeadingEntry) ∈ (predict_headings_simple [blkH1]).outline :=
  claim_C8_thm [blkH1] blkH1 (by decide) (by decide) (by decide) (by decide) (by decide)

/-- C2, counterexample: with a loaded model that raises, the outline is
produced by the heuristic fallback, yet `process_pdf` records
`model_used = "pretrained"`, refuting the claim that the recorded value
always equals the strategy that produced the outline. -/
theorem claim_C2_cex :
    model_used (some failingModel) = "pretrained" ∧
    strategy_that_produced_outline (some failingModel) [] = "heuristic" ∧
    model_used (some failingModel) ≠ strategy_that_produced_outline (some failingModel) [] :=
  ⟨rfl, rfl, by decide⟩

/-- C2 (amended): the recorded `model_used` value agrees with the classifier
strategy that actually produced the outline exactly when the loaded model
(if any) succeeded on the input; after a silent fallback it still records
`"pretrained"`, because it only reflects whether a model object is loaded. -/
theorem claim_C2_thm (heading_model : Option ModelFn) (input_data : List FeatureItem) :
    model_used heading_model = strategy_that_produced_outline heading_model input_data ↔
      (∀ m, heading_model = some m → ∃ r, m input_data = Except.ok r) := by
  cases heading_model with
  | none =>
    simp [model_used, strategy_that_produced_outline]
  | some m =>
    cases hm : m input_data with
    | ok r =>
      have hL : model_used (some m) = strategy_that_produced_outline (some m) input_data := by
        simp [model_used, strategy_that_produced_outline, hm]
      constructor
      · intro _ m' hm'
        cases hm'
        exact ⟨r, hm⟩
      · intro _
        exact hL
    | error e =>
      simp only [model_used, Option.isSome_some, if_pos,
        strategy_that_produced_outline, hm]
      constructor
      · intro hcontra
        exact absurd hcontra (by decide)
      · intro hok
        obtain ⟨r, hr⟩ := hok m rfl
        rw [hm] at hr
        cases hr

/-- C7: the model strategy never propagates a failure: when no model is
loaded, or the (abstract) model computation raises, the returned value is
exactly the heuristic strategy's result on the same input. -/
theorem claim_C7_thm (heading_model : Option ModelFn) (input_data : List FeatureItem)
    (hfail : heading_model = none ∨
      ∃ m e, heading_model = some m ∧ m input_data = Except.error e) :
    predict_headings_with_model heading_model input_data =
      predict_headings_simple input_data := by
  rcases hfail with h | ⟨m, e, hm, he⟩
  · rw [h]; rfl
  · rw [hm]
    simp [predict_headings_with_model, he]

/-- C7, witness: a model that raises falls back to the heuristic result. -/
theorem claim_C7_witness :
    predict_headings_with_model (some failingModel) [] = predict_headings_simple [] :=
  claim_C7_thm (some failingModel) [] (Or.inr ⟨failingModel, "boom", rfl, rfl⟩)

/-- C3, counterexample: a block whose FIRST span is not underlined
(flags 0) but whose second span carries the underline bit is extracted with
`is_underlined = true`, refuting the claim that the underline flag is
derived from the first span only. -/
theorem claim_C3_cex :
    (∃ s line_rest rest, cexBlockLines = (s :: line_rest) :: rest ∧ s.flags &&& 4 = 0) ∧
    block_text_features cexBlockLines = some ("Hello world", false, true) :=
  ⟨⟨{ text := "Hello", size := 12, flags := 0 }, _, _, rfl, rfl⟩, by decide⟩

/-- C3 (amended): for every successfully extracted block, the bold flag is
derived from the first span's flags (bit 16), while the underline flag is
true if and only if SOME span of SOME line of the block carries bit 4. -/
theorem claim_C3_thm (lines : List (List Span)) (t : String) (b u : Bool)
    (h : block_text_features lines = some (t, b, u)) :
    (b = true ↔ ∃ s line_rest rest, lines = (s :: line_rest) :: rest ∧ s.flags &&& 16 ≠ 0) ∧
    (u = true ↔ ∃ line ∈ lines, ∃ span ∈ line, span.flags &&& 4 ≠ 0) := by
  cases lines with
  | nil => simp [block_text_features, line_texts] at h
  | cons l0 rest =>
    cases l0 with
    | nil =>
      by_cases hc : line_texts ([] :: rest) = [] <;>
        simp [block_text_features, hc] at h
    | cons s0 lr =>
      by_cases hc : line_texts ((s0 :: lr) :: rest) = []
      · simp [block_text_features, hc] at h
      · unfold block_text_features at h
        rw [if_neg hc] at h
        have h3 : (smart_join_lines (line_texts ((s0 :: lr) :: rest)),
            ((s0.flags &&& 16) != 0 : Bool),
            underline_present ((s0 :: lr) :: rest)) = (t, b, u) := Option.some.inj h
        injection h3 with ht h4
        injection h4 with hb hu
        subst hb
        subst hu
        constructor
        · simp only [bne_iff_ne, ne_eq]
          constructor
          · intro h16
            exact ⟨s0, lr, rest, rfl, h16⟩
          · rintro ⟨s', lr', rest', heq, h16⟩
            injection heq with h5 h6
            injection h5 with hs hlr
            rw [hs]
            exact h16
        · simp [underline_present, List.any_eq_true]

/-- C3, witness: the amended characterization applied to the concrete block
`cexBlockLines`. -/
theorem claim_C3_witness :
    ((false : Bool) = true ↔
      ∃ s line_rest rest, cexBlockLines = (s :: line_rest) :: rest ∧ s.flags &&& 16 ≠ 0) ∧
    ((true : Bool) = true ↔
      ∃ line ∈ cexBlockLines, ∃ span ∈ line, span.flags &&& 4 ≠ 0) :=
  claim_C3_thm cexBlockLines "Hello world" false true (by decide)

/-- Lines before the first match of the heading text are ignored by the
scan loop. -/
theorem scan_lines_skip (heading_text : String) (next_text : Option String) :
    ∀ (pre rest : List String) (ft : String),
      (∀ lt ∈ pre, lineContains lt heading_text = false) →
      scan_lines heading_text next_text (pre ++ rest) false ft =
        scan_lines heading_text next_text rest false ft := by
  intro pre
  induction pre with
  | nil => intro rest ft _; rfl
  | cons a pre ih =>
    intro rest ft hpre
    have ha : lineContains a heading_text = false := hpre a (by simp)
    simp only [List.cons_append, scan_lines, ha]
    exact ih rest ft (fun lt hlt => hpre lt (by simp [hlt]))

/-- Once the heading has been found, the scan accumulates every line (each
followed by one space) up to, and excluding, the first line that contains
the next heading's text, then strips the result. -/
theorem scan_lines_found (heading_text : String) (next_text : Option String) :
    ∀ (l : List String) (ft : String),
      scan_lines heading_text next_text l true ft =
        pyStrip (ft ++ concatAll
          ((l.takeWhile (fun lt => !(stopAtNext next_text lt))).map
            (fun lt => lt ++ " "))) := by
  intro l
  induction l with
  | nil => intro ft; simp [scan_lines, concatAll]
  | cons lt rest ih =>
    intro ft
    cases next_text with
    | some nt =>
      by_cases hstop : lineContains lt nt = true
      · simp [scan_lines, hstop, List.takeWhile_cons, stopAtNext, concatAll]
      · have hstop' : lineContains lt nt = false := by
          cases hlc : lineContains lt nt
          · rfl
          · exact absurd hlc hstop
        have h1 : scan_lines heading_text (some nt) (lt :: rest) true ft =
            scan_lines heading_text (some nt) rest true (ft ++ lt ++ " ") := by
          simp [scan_lines, hstop']
        rw [h1, ih]
        have htw : ((lt :: rest).takeWhile (fun x => !(stopAtNext (some nt) x))) =
            lt :: (rest.takeWhile (fun x => !(stopAtNext (some nt) x))) := by
          simp [List.takeWhile_cons, stopAtNext, hstop']
        rw [htw, List.map_cons]
        simp only [concatAll]
        congr 1
        simp [String.append_assoc]
    | none =>
      have h1 : scan_lines heading_text none (lt :: rest) true ft =
          scan_lines heading_text none rest true (ft ++ lt ++ " ") := by
        simp [scan_lines]
      rw [h1, ih]
      have htw : ((lt :: rest).takeWhile (fun x => !(stopAtNext none x))) =
          lt :: (rest.takeWhile (fun x => !(stopAtNext none x))) := by
        simp [List.takeWhile_cons, stopAtNext]
      rw [htw, List.map_cons]
      simp only [concatAll]
      congr 1
      simp [String.append_assoc]

/-- C6: the section segmenter scans exactly the window of line texts from
the entry's page through the next entry's page (or document end), given by
`window_lines`.  (1) If no line of the window contains the heading's text
(case-insensitively), the extracted content is empty.  (2) If the window
splits as `pre ++ m :: post` with the first matching line `m`, the content
is the concatenation of the lines of `post` up to (excluding) the first
line containing the next heading's text — the matching line itself is not
accumulated.  (3) Sections kept by `extract_sections_with_content` always
have non-empty content: an entry whose heading text never matches yields
empty content and is omitted without error. -/
theorem claim_C6_thm (doc : List PageContent) (heading : HeadingEntry)
    (next_heading : Option HeadingEntry) :
    ((∀ lt ∈ window_lines doc heading next_heading,
        lineContains lt heading.text = false) →
      extract_text_for_heading doc heading next_heading = "") ∧
    (∀ pre m post, window_lines doc heading next_heading = pre ++ m :: post →
      (∀ lt ∈ pre, lineContains lt heading.text = false) →
      lineContains m heading.text = true →
      extract_text_for_heading doc heading next_heading =
        pyStrip (concatAll
          ((post.takeWhile
              (fun lt => !(stopAtNext (next_heading.map HeadingEntry.text) lt))).map
            (fun lt => lt ++ " ")))) ∧
    (∀ outline s, s ∈ extract_sections_with_content doc outline → s.content ≠ "") := by
  refine ⟨?_, ?_, ?_⟩
  · intro hnone
    unfold extract_text_for_heading
    have h1 : window_lines doc heading next_heading =
        window_lines doc heading next_heading ++ [] := by simp
    rw [h1, scan_lines_skip heading.text _ _ [] "" hnone]
    rfl
  · intro pre m post hwin hpre hm
    unfold extract_text_for_heading
    rw [hwin, scan_lines_skip heading.text _ pre (m :: post) "" hpre]
    simp only [scan_lines, hm, if_pos]
    rw [scan_lines_found, String.empty_append]
  · intro outline
    induction outline with
    | nil => intro s hs; simp [extract_sections_with_content] at hs
    | cons curr rest ih =>
      intro s hs
      unfold extract_sections_with_content at hs
      by_cases hc : extract_text_for_heading doc curr rest.head? ≠ ""
      · rw [if_pos hc] at hs
        rcases List.mem_cons.mp hs with h | h
        · rw [h]
          exact hc
        · exact ih s h
      · rw [if_neg hc] at hs
        exact ih s hs

/-- C6, witness: in the one-page document `docC6`, the section for heading
`"Intro"` with next heading `"Next Sec"` is exactly the line between them. -/
theorem claim_C6_witness :
    extract_text_for_heading docC6 hIntro (some hNext) = "alpha beta" := by
  have h := (claim_C6_thm docC6 hIntro (some hNext)).2.1
    ["The Title"] "Intro" ["alpha beta", "Next Sec", "gamma"]
    (by decide) (by decide) (by decide)
  exact h.trans (by decide)

/-- The result loop equals its closed form `takeRanked` when started with
an accumulator of matching rank (`rank_counter = len(results) + 1`, the
invariant the source maintains). -/
theorem resultsLoop_eq (top_n : ℤ) :
    ∀ (l : List (SectionData × ℚ)) (acc : List SearchResult),
      resultsLoop top_n l acc (acc.length + 1) =
        acc ++ takeRanked top_n (acc.length + 1) l := by
  intro l
  induction l with
  | nil => intro acc; simp [resultsLoop, takeRanked]
  | cons s rest ih =>
    intro acc
    by_cases hwc : count_words s.1.content < 15
    · simp only [resultsLoop, takeRanked, hwc, if_pos]
      exact ih acc
    · by_cases hstop : top_n ≤ ((acc.length + 1 : ℕ) : ℤ)
      · have hlen : ((acc ++ [mkResult s.1 (acc.length + 1) s.2
            (count_words s.1.content)]).length : ℤ) = ((acc.length + 1 : ℕ) : ℤ) := by
          simp
        simp only [resultsLoop, takeRanked, hwc, if_neg, if_false, hlen, hstop, if_pos]
      · have hlen : ((acc ++ [mkResult s.1 (acc.length + 1) s.2
            (count_words s.1.content)]).length : ℤ) = ((acc.length + 1 : ℕ) : ℤ) := by
          simp
        simp only [resultsLoop, takeRanked, hwc, if_neg, if_false, hlen, hstop]
        have h2 := ih (acc ++ [mkResult s.1 (acc.length + 1) s.2 (count_words s.1.content)])
        rw [List.length_append] at h2
        simp only [List.length_singleton] at h2
        rw [h2]
        simp

/-- `find_similar_sections_fast` in closed form: rank-and-filter the stable
similarity-sorted candidate list starting at rank 1. -/
theorem find_similar_eq (score : SectionData → ℚ)
    (processed_files : List ProcessedFileInfo) (top_n : ℤ) :
    find_similar_sections_fast score processed_files top_n =
      takeRanked top_n 1
        (ranked_sections score (load_sections_with_embeddings processed_files)) := by
  unfold find_similar_sections_fast
  by_cases h : (load_sections_with_embeddings processed_files).isEmpty
  · have h0 : load_sections_with_embeddings processed_files = [] :=
      List.isEmpty_iff.mp h
    simp [h, h0, ranked_sections, takeRanked]
  · have h0 := resultsLoop_eq top_n
      (ranked_sections score (load_sections_with_embeddings processed_files)) []
    simpa [h] using h0

/-- The ranks assigned by `takeRanked` are consecutive starting from its
initial rank. -/
theorem takeRanked_map_rank (top_n : ℤ) :
    ∀ (l : List (SectionData × ℚ)) (rank : ℕ),
      (takeRanked top_n rank l).map (fun r => r.importance_rank) =
        List.range' rank ((takeRanked top_n rank l).length) := by
  intro l
  induction l with
  | nil => intro rank; simp [takeRanked]
  | cons s rest ih =>
    intro rank
    by_cases hwc : count_words s.1.content < 15
    · simp only [takeRanked, hwc, if_pos]
      exact ih rank
    · by_cases hstop : top_n ≤ (rank : ℤ)
      · simp [takeRanked, hwc, hstop, mkResult, List.range'_succ]
      · simp only [takeRanked, hwc, if_neg, if_false, hstop, List.map_cons,
          List.length_cons, List.range'_succ]
        rw [ih (rank + 1)]
        rfl

/-- Every result kept by `takeRanked` keeps the identity (document, title,
page, level, content, score) of one of the candidates, in order. -/
theorem takeRanked_key_sublist (top_n : ℤ) :
    ∀ (l : List (SectionData × ℚ)) (rank : ℕ),
      List.Sublist ((takeRanked top_n rank l).map resKey) (l.map scoredKey) := by
  intro l
  induction l with
  | nil => intro rank; simp [takeRanked]
  | cons s rest ih =>
    intro rank
    by_cases hwc : count_words s.1.content < 15
    · simp only [takeRanked, hwc, if_pos, List.map_cons]
      exact (ih rank).cons (scoredKey s)
    · by_cases hstop : top_n ≤ (rank : ℤ)
      · simp only [takeRanked, hwc, if_neg, if_false, hstop, if_pos, List.map_cons,
          List.map_nil]
        exact (List.nil_sublist _).cons₂ (scoredKey s)
      · simp only [takeRanked, hwc, if_neg, if_false, hstop, List.map_cons]
        exact (ih (rank + 1)).cons₂ (scoredKey s)

/-- The similarity scores of the kept results form a sublist of the ranked
candidates' scores. -/
theorem takeRanked_score_sublist (top_n : ℤ) :
    ∀ (l : List (SectionData × ℚ)) (rank : ℕ),
      List.Sublist ((takeRanked top_n rank l).map (fun r => r.similarity_score))
        (l.map (fun x => x.2)) := by
  intro l
  induction l with
  | nil => intro rank; simp [takeRanked]
  | cons s rest ih =>
    intro rank
    by_cases hwc : count_words s.1.content < 15
    · simp only [takeRanked, hwc, if_pos, List.map_cons]
      exact (ih rank).cons s.2
    · by_cases hstop : top_n ≤ (rank : ℤ)
      · simp only [takeRanked, hwc, if_neg, if_false, hstop, if_pos, List.map_cons,
          List.map_nil]
        exact (List.nil_sublist _).cons₂ s.2
      · simp only [takeRanked, hwc, if_neg, if_false, hstop, List.map_cons]
        exact (ih (rank + 1)).cons₂ s.2

/-- Every result kept by `takeRanked` has at least 15 words of content, and
its recorded word count is the word count of its content. -/
theorem takeRanked_wc (top_n : ℤ) :
    ∀ (l : List (SectionData × ℚ)) (rank : ℕ) (r : SearchResult),
      r ∈ takeRanked top_n rank l →
        15 ≤ count_words r.content ∧ r.word_count = count_words r.content := by
  intro l
  induction l with
  | nil => intro rank r hr; simp [takeRanked] at hr
  | cons s rest ih =>
    intro rank r hr
    by_cases hwc : count_words s.1.content < 15
    · simp only [takeRanked, hwc, if_pos] at hr
      exact ih rank r hr
    · by_cases hstop : top_n ≤ (rank : ℤ)
      · simp only [takeRanked, hwc, if_neg, if_false, hstop, if_pos,
          List.mem_singleton] at hr
        rw [hr]
        exact ⟨by simp only [mkResult]; omega, by simp only [mkResult]⟩
      · simp only [takeRanked, hwc, if_neg, if_false, hstop, List.mem_cons] at hr
        rcases hr with h | h
        · rw [h]
          exact ⟨by simp only [mkResult]; omega, by simp only [mkResult]⟩
        · exact ih (rank + 1) r h

/-- When `top_n ≤ 0`, `takeRanked` stops right after its first kept result:
if some candidate passes the word-count filter, exactly one result is
returned. -/
theorem takeRanked_len_one (top_n : ℤ) (ht : top_n ≤ 0) :
    ∀ (l : List (SectionData × ℚ)) (rank : ℕ), 1 ≤ rank →
      (∃ x ∈ l, 15 ≤ count_words x.1.content) →
      (takeRanked top_n rank l).length = 1 := by
  intro l
  induction l with
  | nil =>
    intro rank _ hx
    obtain ⟨x, hx1, -⟩ := hx
    simp at hx1
  | cons s rest ih =>
    intro rank hrank hx
    by_cases hwc : count_words s.1.content < 15
    · simp only [takeRanked, hwc, if_pos]
      apply ih rank hrank
      obtain ⟨x, hx1, hx2⟩ := hx
      rcases List.mem_cons.mp hx1 with h | h
      · rw [h] at hx2
        omega
      · exact ⟨x, h, hx2⟩
    · have hstop : top_n ≤ (rank : ℤ) := by
        have : (1 : ℤ) ≤ (rank : ℤ) := by exact_mod_cast hrank
        omega
      simp [takeRanked, hwc, hstop]

/-- Inserting a candidate with score `c` into a list commutes with
filtering by score `c`: every candidate the insertion passes over has a
strictly larger score. -/
theorem filter_orderedInsert_score (c : ℚ) (a : SectionData × ℚ)
    (ha : a.2 = c) :
    ∀ (l : List (SectionData × ℚ)),
      (l.orderedInsert simLe a).filter (fun x => decide (x.2 = c)) =
        a :: l.filter (fun x => decide (x.2 = c)) := by
  intro l
  induction l with
  | nil => simp [ha]
  | cons b l ih =>
    by_cases hr : simLe a b
    · simp [List.orderedInsert, hr, ha, List.filter_cons]
    · have hb : ¬ (b.2 = c) := by
        intro h
        exact hr (by unfold simLe; rw [h, ha])
      simp [List.orderedInsert, hr, hb, List.filter_cons, ih]

/-- Inserting a candidate whose score is not `c` does not change the
score-`c` filtrate. -/
theorem filter_orderedInsert_score_ne (c : ℚ) (a : SectionData × ℚ)
    (ha : ¬ a.2 = c) :
    ∀ (l : List (SectionData × ℚ)),
      (l.orderedInsert simLe a).filter (fun x => decide (x.2 = c)) =
        l.filter (fun x => decide (x.2 = c)) := by
  intro l
  induction l with
  | nil => simp [ha]
  | cons b l ih =>
    by_cases hr : simLe a b
    · simp [List.orderedInsert, hr, ha, List.filter_cons]
    · simp [List.orderedInsert, hr, List.filter_cons, ih]

/-- Stability of the similarity sort, filter form: the candidates having
any fixed score `c` appear in the sorted list exactly in their original
order. -/
theorem insertionSort_filter_score (c : ℚ) :
    ∀ (l : List (SectionData × ℚ)),
      (l.insertionSort simLe).filter (fun x => decide (x.2 = c)) =
        l.filter (fun x => decide (x.2 = c)) := by
  intro l
  induction l with
  | nil => simp
  | cons x xs ih =>
    by_cases hx : x.2 = c
    · rw [List.insertionSort, filter_orderedInsert_score c x hx, ih]
      simp [List.filter_cons, hx]
    · rw [List.insertionSort, filter_orderedInsert_score_ne c x hx, ih]
      simp [List.filter_cons, hx]

/-- The rank recorded at position `k` of `takeRanked` started at `rank` is
`rank + k`. -/
theorem takeRanked_rank_at (top_n : ℤ) :
    ∀ (l : List (SectionData × ℚ)) (rank k : ℕ) (r : SearchResult),
      (takeRanked top_n rank l)[k]? = some r → r.importance_rank = rank + k := by
  intro l
  induction l with
  | nil => intro rank k r hr; simp [takeRanked] at hr
  | cons s rest ih =>
    intro rank k r hr
    by_cases hwc : count_words s.1.content < 15
    · simp only [takeRanked, hwc, if_pos] at hr
      exact ih rank k r hr
    · by_cases hstop : top_n ≤ (rank : ℤ)
      · simp only [takeRanked, hwc, if_neg, if_false, hstop, if_pos] at hr
        cases k with
        | zero =>
          simp only [List.getElem?_cons_zero, Option.some.injEq] at hr
          rw [← hr]
          simp [mkResult]
        | succ k =>
          simp at hr
      · simp only [takeRanked, hwc, if_neg, if_false, hstop] at hr
        cases k with
        | zero =>
          simp only [List.getElem?_cons_zero, Option.some.injEq] at hr
          rw [← hr]
          simp [mkResult]
        | succ k =>
          simp only [List.getElem?_cons_succ] at hr
          rw [ih (rank + 1) k r hr]
          omega

/-- C4: for every similarity search, (1) the importance ranks of the
returned list are the dense 1-based sequence `1..k`; (2) a result with a
strictly higher similarity score than another has a strictly smaller
(better) rank; (3) among results with any equal score `c`, the results
appear in the original traversal order of the candidate sections (document
order, then section order), stated as a sublist relation on their
identities. -/
theorem claim_C4_thm (score : SectionData → ℚ)
    (processed_files : List ProcessedFileInfo) (top_n : ℤ)
    (res : List SearchResult)
    (hres : res = find_similar_sections_fast score processed_files top_n) :
    (res.map (fun r => r.importance_rank) = List.range' 1 res.length) ∧
    (∀ i j (hi : i < res.length) (hj : j < res.length),
        (res.get ⟨j, hj⟩).similarity_score < (res.get ⟨i, hi⟩).similarity_score →
        (res.get ⟨i, hi⟩).importance_rank < (res.get ⟨j, hj⟩).importance_rank) ∧
    (∀ c : ℚ, List.Sublist
        ((res.filter (fun r => decide (r.similarity_score = c))).map resKey)
        ((((load_sections_with_embeddings processed_files).map
            (fun s => (s, score s))).filter (fun x => decide (x.2 = c))).map scoredKey)) := by
  have hres2 : res = takeRanked top_n 1
      (ranked_sections score (load_sections_with_embeddings processed_files)) := by
    rw [hres, find_similar_eq]
  set scored := (load_sections_with_embeddings processed_files).map
    (fun s => (s, score s)) with hscored
  set ranked := ranked_sections score (load_sections_with_embeddings processed_files)
    with hranked
  subst hres2
  have hpw_ranked : ranked.Pairwise simLe := by
    rw [hranked]
    exact List.sorted_insertionSort simLe _
  refine ⟨takeRanked_map_rank top_n ranked 1, ?_, ?_⟩
  · -- monotone ranks
    have hscore_pw : ((takeRanked top_n 1 ranked).map
        (fun r => r.similarity_score)).Pairwise (fun a b : ℚ => b ≤ a) := by
      have h1 : (ranked.map (fun x => x.2)).Pairwise (fun a b : ℚ => b ≤ a) :=
        List.pairwise_map.mpr (hpw_ranked.imp (fun h => h))
      exact List.Pairwise.sublist (takeRanked_score_sublist top_n ranked 1) h1
    intro i j hi hj hlt
    have hmaplen : (takeRanked top_n 1 ranked).length =
        ((takeRanked top_n 1 ranked).map (fun r => r.similarity_score)).length := by
      simp
    have hij : i < j := by
      rcases lt_trichotomy i j with h | h | h
      · exact h
      · exfalso
        subst h
        exact lt_irrefl _ hlt
      · exfalso
        have h2 := List.pairwise_iff_getElem.mp hscore_pw j i
          (hmaplen ▸ hj) (hmaplen ▸ hi) h
        rw [List.getElem_map, List.getElem_map] at h2
        simp only [List.get_eq_getElem] at hlt
        exact absurd hlt (not_lt.mpr h2)
    have hqi : (takeRanked top_n 1 ranked)[i]? =
        some ((takeRanked top_n 1 ranked).get ⟨i, hi⟩) := by
      rw [List.get_eq_getElem]
      exact List.getElem?_eq_getElem hi
    have hqj : (takeRanked top_n 1 ranked)[j]? =
        some ((takeRanked top_n 1 ranked).get ⟨j, hj⟩) := by
      rw [List.get_eq_getElem]
      exact List.getElem?_eq_getElem hj
    rw [takeRanked_rank_at top_n ranked 1 i _ hqi, takeRanked_rank_at top_n ranked 1 j _ hqj]
    omega
  · -- stability of ties
    intro c
    have h1 : List.Sublist ((takeRanked top_n 1 ranked).map resKey)
        (ranked.map scoredKey) :=
      takeRanked_key_sublist top_n ranked 1
    have h2 := h1.filter
      (fun k : String × String × ℕ × String × String × ℚ => decide (k.2.2.2.2.2 = c))
    rw [List.filter_map, List.filter_map] at h2
    have e1 : ((fun k : String × String × ℕ × String × String × ℚ =>
        decide (k.2.2.2.2.2 = c)) ∘ resKey) =
        (fun r : SearchResult => decide (r.similarity_score = c)) := rfl
    have e2 : ((fun k : String × String × ℕ × String × String × ℚ =>
        decide (k.2.2.2.2.2 = c)) ∘ scoredKey) =
        (fun x : SectionData × ℚ => decide (x.2 = c)) := rfl
    rw [e1, e2] at h2
    have h3 : ranked.filter (fun x => decide (x.2 = c)) =
        scored.filter (fun x => decide (x.2 = c)) := by
      rw [hranked, hscored]
      exact insertionSort_filter_score c _
    rw [h3] at h2
    exact h2

/-- C4, witness: searching `exFileAB` with a score preferring section
`"Beta"` returns dense 1-based ranks. -/
theorem claim_C4_witness :
    (find_similar_sections_fast scoreBeta [exFileAB] 10).map
        (fun r => r.importance_rank) =
      List.range' 1 (find_similar_sections_fast scoreBeta [exFileAB] 10).length :=
  (claim_C4_thm scoreBeta [exFileAB] 10 _ rfl).1

/-- C5: every result returned by the similarity search has content of at
least 15 words (words = non-empty whitespace-separated tokens), and its
recorded word count equals the word count of its content; sections below
15 words never appear. -/
theorem claim_C5_thm (score : SectionData → ℚ)
    (processed_files : List ProcessedFileInfo) (top_n : ℤ) (r : SearchResult)
    (hr : r ∈ find_similar_sections_fast score processed_files top_n) :
    15 ≤ count_words r.content ∧ r.word_count = count_words r.content := by
  rw [find_similar_eq] at hr
  exact takeRanked_wc top_n _ 1 r hr

/-- C5, witness: the single result of searching `exFileTinyAlpha` (whose
first section has fewer than 15 words) satisfies the filter invariant. -/
theorem claim_C5_witness :
    15 ≤ count_words resAlpha.content ∧
      resAlpha.word_count = count_words resAlpha.content :=
  claim_C5_thm zeroScore [exFileTinyAlpha] 10 resAlpha (by decide)

/-- C9: a similarity search whose candidate set is empty (empty corpus, or
no supplied index contributes sections) returns the empty list; the
embedded function is total, so no exception is raised. -/
theorem claim_C9_thm (score : SectionData → ℚ)
    (processed_files : List ProcessedFileInfo) (top_n : ℤ)
    (h : load_sections_with_embeddings processed_files = []) :
    find_similar_sections_fast score processed_files top_n = [] := by
  simp [find_similar_sections_fast, h]

/-- C9, witness: searching an empty corpus returns the empty list. -/
theorem claim_C9_witness :
    find_similar_sections_fast zeroScore [] 10 = [] :=
  claim_C9_thm zeroScore [] 10 rfl

/-- C10: with `top_n ≤ 0`, if at least one candidate section passes the
15-word filter then the search returns exactly one result, because the
`top_n` cutoff is only checked after a result has been appended. -/
theorem claim_C10_thm (score : SectionData → ℚ)
    (processed_files : List ProcessedFileInfo) (top_n : ℤ) (ht : top_n ≤ 0)
    (hx : ∃ s ∈ load_sections_with_embeddings processed_files,
      15 ≤ count_words s.content) :
    (find_similar_sections_fast score processed_files top_n).length = 1 := by
  rw [find_similar_eq]
  apply takeRanked_len_one top_n ht _ 1 (le_refl 1)
  obtain ⟨s, hs, hwc⟩ := hx
  refine ⟨(s, score s), ?_, hwc⟩
  unfold ranked_sections
  rw [List.mem_insertionSort simLe]
  exact List.mem_map_of_mem _ hs

/-- C10, witness: `top_n = 0` against a corpus with one passing section
returns exactly one result. -/
theorem claim_C10_witness :
    (find_similar_sections_fast zeroScore [exFileTinyAlpha] 0).length = 1 :=
  claim_C10_thm zeroScore [exFileTinyAlpha] 0 (by decide)
    ⟨loadedAlpha, by decide, by decide⟩

end PdfProc
